import Mathlib

/-!
Verification of feed-to-pocket against its specification.

This file gives a shallow embedding, in Lean 4, of the parts of the
feed-to-pocket Go repository that the specification's claims are about:

* the diff engine `compareFeedItems` (src/internal/feed/feed.go),
* the per-source pipeline `findNewItems` together with the consumer callback
  installed by `main` (src/feed-to-pocket.go), folded into `processSource`,
* the Pocket delivery client `AddItems` (src/internal/pocket/pocket.go),
* the content HTTP server (src/internal/http_server/http_server.go).

External collaborators (the gofeed XML parser, the network, the md5 function,
the random salt) are modelled as parameters; everything else is translated
directly from the Go source.  Go `time.Time` values are modelled as `Int`
via a monotone encoding in which the zero value is `0`, `Before` is `<` and
`IsZero` is `= 0`; Go byte strings (file contents) are modelled as `String`.
-/

/-- One entry of a parsed feed, the projection of `gofeed.Item` that the
repository reads: GUID, link, title, the parsed published/updated times
(`nil` pointers become `none`) and the description. -/
structure Candidate where
  guid : String
  link : String
  title : String
  published : Option Int
  updated : Option Int
  description : String
deriving DecidableEq

/-- A parsed feed (`gofeed.Feed`), reduced to its item list, which is all the
repository inspects. -/
abbrev Feed := List Candidate

/-- `feed.Source` (src/internal/feed/feed.go): id, name, url, the
`use_server` flag (called `ForceArticleView` at the call site in main) and
the per-source start date (cutoff). -/
structure FSource where
  id : String
  name : String
  url : String
  useServer : Bool
  startDate : Int
deriving DecidableEq

/-- `feed.Item` (src/internal/feed/feed.go): the output record of the diff
engine. -/
structure Item where
  id : String
  url : String
  title : String
  time : Int
  tags : List String
  document : String
deriving DecidableEq

/-- Lookup in the `guids` map built by `compareFeedItems`: the map stores
`guids[item.GUID] = item.GUID != ""` for every old item, so a lookup returns
`true` exactly when the key is a non-empty GUID of some old item (a `nil`
old feed yields an empty map). -/
def guidSeen (old : Option Feed) (g : String) : Bool :=
  match old with
  | none => false
  | some f => (g != "") && f.any (fun it => it.guid == g)

/-- Lookup in the `links` map built by `compareFeedItems`: stores
`links[item.Link] = item.Link != ""` for every old item. -/
def linkSeen (old : Option Feed) (l : String) : Bool :=
  match old with
  | none => false
  | some f => (l != "") && f.any (fun it => it.link == l)

/-- `buildDocument` (src/internal/feed/feed.go): the HTML page wrapped
around an item's title and description. -/
def buildDocument (c : Candidate) : String :=
  "<!DOCTYPE html>\n<html>\n<head>\n  <title>" ++ c.title ++
    "</title>\n  <meta charset=\"UTF-8\">\n</head>\n<body>" ++ c.description ++
    "</body>\n</html>\n\t\t"

/-- How the loop body of `compareFeedItems` disposes of one candidate: each
constructor is one of the `continue` sites, in source order, and `fresh`
carries the record appended to `newItems`. -/
inductive ItemClass where
  | noLink
  | tooOld
  | dupGuid
  | dupLink
  | fresh (out : Item)
deriving DecidableEq

/-- The `output` record as first built in the loop body of
`compareFeedItems`: `Id` and `Url` are both the item's link, `Time` is the
zero value, `Tags` is the singleton source id. -/
def emitBase (src : FSource) (c : Candidate) : Item :=
  { id := c.link, url := c.link, title := c.title, time := 0,
    tags := [src.id], document := "" }

/-- The loop body of `compareFeedItems` (src/internal/feed/feed.go,
lines 146-190) for one candidate, as a classification:
no link -> skip; published (else updated) time strictly before the source
start date -> skip; non-empty GUID found in the old GUID map -> skip; link
found in the old link map -> skip; otherwise emit the output record, with
`Document` filled in when `source.UseServer` is set.

Split in two definitions: `dedupEmit` is the tail of the loop body, reached
after the link and timestamp checks with `t` the value assigned to
`output.Time` (the GUID dedup check, the link dedup check, and the final
append); `classifyItem` is the whole body. -/
def dedupEmit (old : Option Feed) (src : FSource) (c : Candidate) (t : Int) : ItemClass :=
  if (c.guid != "") && guidSeen old c.guid then .dupGuid
  else if linkSeen old c.link then .dupLink
  else
    let out : Item := { emitBase src c with time := t }
    .fresh (if src.useServer then { out with document := buildDocument c } else out)

def classifyItem (old : Option Feed) (src : FSource) (c : Candidate) : ItemClass :=
  if c.link == "" then .noLink
  else
    match c.published with
    | some t => if t < src.startDate then .tooOld else dedupEmit old src c t
    | none =>
      match c.updated with
      | some t => if t < src.startDate then .tooOld else dedupEmit old src c t
      | none => dedupEmit old src c 0

/-- `compareFeedItems` (src/internal/feed/feed.go): iterate the new feed's
items in order, appending exactly the candidates classified `fresh`. -/
def compareFeedItems (old : Option Feed) (new : Feed) (src : FSource) : List Item :=
  new.filterMap fun c =>
    match classifyItem old src c with
    | .fresh o => some o
    | _ => none

/-- The effective timestamp of a candidate: published if present, else
updated (mirrors the nested `PublishedParsed` / `UpdatedParsed` branches of
`compareFeedItems`). -/
def effTime (c : Candidate) : Option Int :=
  match c.published with
  | some t => some t
  | none => c.updated

/-- The item that `compareFeedItems` emits for a candidate that passes all
checks: both id and url are the link, the time is the effective timestamp
(zero when absent), the tag is the source id, and the document is built
exactly when `use_server` is set. -/
def emitItem (src : FSource) (c : Candidate) : Item :=
  let out : Item := { emitBase src c with time := (effTime c).getD 0 }
  if src.useServer then { out with document := buildDocument c } else out

theorem guidSeen_ne_empty {old : Option Feed} {g : String}
    (h : guidSeen old g = true) : g ≠ "" := by
  cases old with
  | none => simp [guidSeen] at h
  | some f =>
    simp only [guidSeen, Bool.and_eq_true, bne_iff_ne] at h
    exact h.1

theorem dedupEmit_ne_tooOld (old : Option Feed) (src : FSource) (c : Candidate)
    (t : Int) : dedupEmit old src c t ≠ .tooOld := by
  unfold dedupEmit
  split
  · simp
  · split <;> simp

theorem dedupEmit_fresh {old : Option Feed} {src : FSource} {c : Candidate}
    {t : Int} {o : Item} (h : dedupEmit old src c t = .fresh o) :
    o = (let out : Item := { emitBase src c with time := t }
         if src.useServer then { out with document := buildDocument c } else out) ∧
      guidSeen old c.guid = false ∧ linkSeen old c.link = false := by
  unfold dedupEmit at h
  split at h
  · simp at h
  · split at h
    · simp at h
    · rename_i hG hL
      have hg : guidSeen old c.guid = false := by
        rcases Bool.eq_false_or_eq_true (guidSeen old c.guid) with h1 | h0
        · exact absurd (by simp [h1, guidSeen_ne_empty h1]) hG
        · exact h0
      have hl : linkSeen old c.link = false := by simpa using hL
      simp only [ItemClass.fresh.injEq] at h
      exact ⟨h.symm, hg, hl⟩

theorem classifyItem_fresh_eq {old : Option Feed} {src : FSource} {c : Candidate}
    {o : Item} (h : classifyItem old src c = .fresh o) :
    o = emitItem src c ∧ c.link ≠ "" ∧ guidSeen old c.guid = false ∧
      linkSeen old c.link = false ∧ ∀ t, effTime c = some t → src.startDate ≤ t := by
  unfold classifyItem at h
  split at h
  · simp at h
  · rename_i hl
    have hl' : c.link ≠ "" := by simpa using hl
    rcases hp : c.published with _ | t
    · rcases hu : c.updated with _ | t
      · rw [hp, hu] at h
        simp only at h
        obtain ⟨ho, hg, hlk⟩ := dedupEmit_fresh h
        refine ⟨?_, hl', hg, hlk, ?_⟩
        · rw [ho]; simp [emitItem, effTime, hp, hu]
        · intro t' ht'; simp [effTime, hp, hu] at ht'
      · rw [hp, hu] at h
        simp only at h
        split at h
        · simp at h
        · rename_i hts
          obtain ⟨ho, hg, hlk⟩ := dedupEmit_fresh h
          refine ⟨?_, hl', hg, hlk, ?_⟩
          · rw [ho]; simp [emitItem, effTime, hp, hu]
          · intro t' ht'
            simp [effTime, hp, hu] at ht'
            omega
    · rw [hp] at h
      simp only at h
      split at h
      · simp at h
      · rename_i hts
        obtain ⟨ho, hg, hlk⟩ := dedupEmit_fresh h
        refine ⟨?_, hl', hg, hlk, ?_⟩
        · rw [ho]; simp [emitItem, effTime, hp]
        · intro t' ht'
          simp [effTime, hp] at ht'
          omega

theorem compareFeedItems_nil (old : Option Feed) (src : FSource) :
    compareFeedItems old [] src = [] := rfl

theorem compareFeedItems_cons (old : Option Feed) (c : Candidate) (rest : Feed)
    (src : FSource) :
    compareFeedItems old (c :: rest) src =
      (match classifyItem old src c with
        | .fresh o => some o
        | _ => none).toList ++ compareFeedItems old rest src := by
  cases hc : classifyItem old src c <;>
    simp [compareFeedItems, List.filterMap_cons, hc]

/-- Claim C3: for every previous snapshot `P` and candidate list `C`, the
diff never returns an item whose non-empty GUID is in `P`'s set of non-empty
GUIDs or whose link is in `P`'s set of non-empty links (in particular a
GUID match excludes the item even when its link changed), and the returned
items are the emitted images of a subsequence of `C`, in source order. -/
theorem C3_diff_excludes_seen_and_preserves_order (P : Feed) (C : Feed)
    (src : FSource) :
    ∃ cs : List Candidate, cs.Sublist C ∧
      compareFeedItems (some P) C src = cs.map (emitItem src) ∧
      ∀ c ∈ cs, guidSeen (some P) c.guid = false ∧
        linkSeen (some P) c.link = false := by
  induction C with
  | nil => exact ⟨[], by simp [compareFeedItems_nil]⟩
  | cons c rest ih =>
    obtain ⟨cs, hsub, heq, hmem⟩ := ih
    cases hc : classifyItem (some P) src c with
    | fresh o =>
      obtain ⟨ho, _, hg, hl, _⟩ := classifyItem_fresh_eq hc
      refine ⟨c :: cs, hsub.cons₂ c, ?_, ?_⟩
      · rw [compareFeedItems_cons, hc, heq, ho]
        simp
      · intro x hx
        rcases List.mem_cons.mp hx with hx | hx
        · subst hx; exact ⟨hg, hl⟩
        · exact hmem x hx
    | noLink =>
      refine ⟨cs, hsub.cons c, ?_, hmem⟩
      rw [compareFeedItems_cons, hc, heq]; simp
    | tooOld =>
      refine ⟨cs, hsub.cons c, ?_, hmem⟩
      rw [compareFeedItems_cons, hc, heq]; simp
    | dupGuid =>
      refine ⟨cs, hsub.cons c, ?_, hmem⟩
      rw [compareFeedItems_cons, hc, heq]; simp
    | dupLink =>
      refine ⟨cs, hsub.cons c, ?_, hmem⟩
      rw [compareFeedItems_cons, hc, heq]; simp

/-- Witness for C3 at a concrete snapshot and feed: the previous snapshot
holds GUID `g1` with link `l1`; the current feed recycles GUID `g1` under a
changed link `l2` (excluded), repeats link `l1` under a new GUID (excluded)
and offers one genuinely new item (returned). -/
theorem C3_witness :
    ∃ cs : List Candidate,
      cs.Sublist [⟨"g1", "l2", "a", some 5, none, ""⟩,
        ⟨"g9", "l1", "b", some 6, none, ""⟩, ⟨"g2", "l3", "c", some 7, none, ""⟩] ∧
      compareFeedItems (some [⟨"g1", "l1", "t", some 1, none, ""⟩])
          [⟨"g1", "l2", "a", some 5, none, ""⟩, ⟨"g9", "l1", "b", some 6, none, ""⟩,
            ⟨"g2", "l3", "c", some 7, none, ""⟩]
          ⟨"s", "n", "u", false, 0⟩ = cs.map (emitItem ⟨"s", "n", "u", false, 0⟩) ∧
      ∀ c ∈ cs, guidSeen (some [⟨"g1", "l1", "t", some 1, none, ""⟩]) c.guid = false ∧
        linkSeen (some [⟨"g1", "l1", "t", some 1, none, ""⟩]) c.link = false :=
  C3_diff_excludes_seen_and_preserves_order
    [⟨"g1", "l1", "t", some 1, none, ""⟩]
    [⟨"g1", "l2", "a", some 5, none, ""⟩, ⟨"g9", "l1", "b", some 6, none, ""⟩,
      ⟨"g2", "l3", "c", some 7, none, ""⟩]
    ⟨"s", "n", "u", false, 0⟩

/-- Claim C2, counterexample: the code sets `Id: item.Link` unconditionally
(src/internal/feed/feed.go line 154), so a candidate with the non-empty GUID
`g1` and link `l1` is emitted with id `l1`, not `g1` as the claim states. -/
theorem C2_counterexample :
    ∃ o, o ∈ compareFeedItems none [⟨"g1", "l1", "T", some 5, none, ""⟩]
        ⟨"s", "n", "u", false, 0⟩ ∧
      ("g1" : String) ≠ "" ∧ o.id ≠ "g1" ∧ o.id = "l1" :=
  ⟨{ id := "l1", url := "l1", title := "T", time := 5, tags := ["s"],
     document := "" }, by decide, by decide, by decide, by decide⟩

/-- Claim C2 as amended: every emitted item's id equals its source
candidate's link — the GUID is never used as the id — so the id is
non-empty, and candidates lacking a link never appear in the output. -/
theorem C2_id_is_link (old : Option Feed) (new : Feed) (src : FSource)
    (o : Item) (ho : o ∈ compareFeedItems old new src) :
    ∃ c ∈ new, o.id = c.link ∧ c.link ≠ "" ∧ o.id ≠ "" := by
  simp only [compareFeedItems, List.mem_filterMap] at ho
  obtain ⟨c, hc, hcls⟩ := ho
  refine ⟨c, hc, ?_⟩
  cases hcl : classifyItem old src c with
  | fresh o' =>
    rw [hcl] at hcls
    simp only [Option.some.injEq] at hcls
    obtain ⟨ho', hl, -, -, -⟩ := classifyItem_fresh_eq hcl
    subst hcls
    have hid : o'.id = c.link := by
      rw [ho']
      unfold emitItem emitBase
      split <;> rfl
    exact ⟨hid, hl, by rw [hid]; exact hl⟩
  | noLink => rw [hcl] at hcls; simp at hcls
  | tooOld => rw [hcl] at hcls; simp at hcls
  | dupGuid => rw [hcl] at hcls; simp at hcls
  | dupLink => rw [hcl] at hcls; simp at hcls

/-- Witness for the amended C2 at a concrete input. -/
theorem C2_witness :
    ({ id := "l1", url := "l1", title := "T", time := 5, tags := ["s"],
       document := "" } : Item) ∈
        compareFeedItems none [⟨"g1", "l1", "T", some 5, none, ""⟩]
          ⟨"s", "n", "u", false, 0⟩ ∧
      ∃ c ∈ [(⟨"g1", "l1", "T", some 5, none, ""⟩ : Candidate)],
        ({ id := "l1", url := "l1", title := "T", time := 5, tags := ["s"],
           document := "" } : Item).id = c.link ∧ c.link ≠ "" ∧
          ({ id := "l1", url := "l1", title := "T", time := 5, tags := ["s"],
             document := "" } : Item).id ≠ "" :=
  ⟨by decide,
   C2_id_is_link none [⟨"g1", "l1", "T", some 5, none, ""⟩]
     ⟨"s", "n", "u", false, 0⟩ _ (by decide)⟩

/-- Claim C4: for a candidate with a link, the loop's cutoff step discards
it exactly when its effective timestamp (published, else updated) exists and
is strictly before the source's start date; a timestamp equal to the cutoff
passes, an item with neither timestamp is never discarded on cutoff
grounds, and an emitted item carries the effective timestamp (zero value
when absent) in its `Time` field. -/
theorem C4_cutoff (old : Option Feed) (src : FSource) (c : Candidate)
    (hl : c.link ≠ "") :
    ((classifyItem old src c = .tooOld) ↔
      ∃ t, effTime c = some t ∧ t < src.startDate) ∧
    (effTime c = none → classifyItem old src c ≠ .tooOld) ∧
    (∀ o, classifyItem old src c = .fresh o → o.time = (effTime c).getD 0) := by
  have hl2 : (c.link == "") = false := by simpa using hl
  refine ⟨?_, ?_, ?_⟩
  · constructor
    · intro h
      unfold classifyItem at h
      rw [hl2] at h
      simp only [Bool.false_eq_true, if_false] at h
      rcases hp : c.published with _ | t
      · rcases hu : c.updated with _ | t
        · rw [hp, hu] at h
          exact absurd h (dedupEmit_ne_tooOld old src c 0)
        · rw [hp, hu] at h
          simp only at h
          split at h
          · exact ⟨t, by simp [effTime, hp, hu], by assumption⟩
          · exact absurd h (dedupEmit_ne_tooOld old src c t)
      · rw [hp] at h
        simp only at h
        split at h
        · exact ⟨t, by simp [effTime, hp], by assumption⟩
        · exact absurd h (dedupEmit_ne_tooOld old src c t)
    · rintro ⟨t, ht, hlt⟩
      unfold classifyItem
      rw [hl2]
      simp only [Bool.false_eq_true, if_false]
      rcases hp : c.published with _ | t'
      · rcases hu : c.updated with _ | t'
        · simp [effTime, hp, hu] at ht
        · simp only [effTime, hp, hu, Option.some.injEq] at ht
          subst ht
          simp [hlt]
      · simp only [effTime, hp, Option.some.injEq] at ht
        subst ht
        simp [hlt]
  · intro hnone h
    unfold classifyItem at h
    rw [hl2] at h
    simp only [Bool.false_eq_true, if_false] at h
    rcases hp : c.published with _ | t
    · rcases hu : c.updated with _ | t
      · rw [hp, hu] at h
        exact absurd h (dedupEmit_ne_tooOld old src c 0)
      · simp [effTime, hp, hu] at hnone
    · simp [effTime, hp] at hnone
  · intro o h
    obtain ⟨ho, -, -, -, -⟩ := classifyItem_fresh_eq h
    rw [ho]
    unfold emitItem emitBase
    split <;> rfl

/-- Witness for C4: a candidate published exactly at the cutoff is not
discarded by the cutoff step. -/
theorem C4_witness :
    (⟨"g", "l", "T", some 3, none, ""⟩ : Candidate).link ≠ "" ∧
      ¬(classifyItem none ⟨"s", "n", "u", false, 3⟩
          ⟨"g", "l", "T", some 3, none, ""⟩ = .tooOld) := by
  refine ⟨by decide, ?_⟩
  have h := (C4_cutoff none ⟨"s", "n", "u", false, 3⟩
    ⟨"g", "l", "T", some 3, none, ""⟩ (by decide)).1
  intro hc
  obtain ⟨t, ht, hlt⟩ := h.mp hc
  simp [effTime] at ht hlt
  omega

/-- `pocket.NewItem` (src/internal/pocket/pocket.go): one action in an
outbound request (the unused `RefId` field is omitted). -/
structure PItem where
  url : String
  title : String
  time : Int
  tags : List String
deriving DecidableEq

/-- `pocket.Config`: only the `batch` field matters to the claims. -/
structure PocketConfig where
  batch : Int
deriving DecidableEq

/-- Fuel-driven version of the batching loop `for i := 0; i < len(items);
i = i + batch` of `AddItems`: each round sends the slice
`items[i:min(i+batch, len(items))]`, which is `take n` of what is left. -/
def chunksAux {α : Type} : Nat → Nat → List α → List (List α)
  | 0, _, _ => []
  | _ + 1, _, [] => []
  | fuel + 1, n, x :: xs => (x :: xs).take n :: chunksAux fuel n ((x :: xs).drop n)

/-- The list of consecutive batches that `AddItems` slices `l` into when the
batch size is `n` (`l.length` is enough fuel because `n ≥ 1` drops at least
one element per round). -/
def chunks {α : Type} (n : Nat) (l : List α) : List (List α) :=
  chunksAux l.length n l

/-- The batch size `AddItems` actually uses: the configured value, or 20
when the configured value is not positive. -/
def effectiveBatch (cfg : PocketConfig) : Nat :=
  if cfg.batch ≤ 0 then 20 else cfg.batch.toNat

/-- The per-batch sending loop of `AddItems`: each batch is serialized as
one POST to the Pocket API (modelled by the `accept` oracle: `true` means
status 200); on the first rejected batch the whole call returns the error,
leaving the remaining batches unsent.  Returns the requests actually issued,
in order, and whether the call succeeded. -/
def sendBatches {α : Type} (accept : List α → Bool) :
    List (List α) → List (List α) × Bool
  | [] => ([], true)
  | b :: bs =>
    if accept b then
      let r := sendBatches accept bs
      (b :: r.1, r.2)
    else ([b], false)

/-- `AddItems` (src/internal/pocket/pocket.go, lines 54-89): an empty item
list returns nil without any request; otherwise the items are sent in
consecutive batches of `effectiveBatch` items. -/
def addItems (cfg : PocketConfig) (accept : List PItem → Bool)
    (items : List PItem) : List (List PItem) × Bool :=
  if items.isEmpty then ([], true)
  else sendBatches accept (chunks (effectiveBatch cfg) items)

theorem chunksAux_join {α : Type} (n : Nat) :
    ∀ (fuel : Nat) (l : List α), l.length ≤ fuel → 0 < n →
      (chunksAux fuel n l).flatten = l := by
  intro fuel
  induction fuel with
  | zero =>
    intro l hl _
    cases l with
    | nil => rfl
    | cons x xs => simp at hl
  | succ fuel ih =>
    intro l hl hn
    cases l with
    | nil => rfl
    | cons x xs =>
      have hdrop : ((x :: xs).drop n).length ≤ fuel := by
        simp only [List.length_drop, List.length_cons] at *
        omega
      simp only [chunksAux, List.flatten_cons]
      rw [ih _ hdrop hn]
      exact List.take_append_drop n (x :: xs)

theorem chunksAux_mem {α : Type} (n : Nat) :
    ∀ (fuel : Nat) (l : List α) (b : List α), b ∈ chunksAux fuel n l →
      0 < n → b ≠ [] ∧ b.length ≤ n := by
  intro fuel
  induction fuel with
  | zero => intro l b hb _; simp [chunksAux] at hb
  | succ fuel ih =>
    intro l b hb hn
    cases l with
    | nil => simp [chunksAux] at hb
    | cons x xs =>
      simp only [chunksAux, List.mem_cons] at hb
      rcases hb with hb | hb
      · subst hb
        constructor
        · cases n with
          | zero => omega
          | succ m => simp [List.take]
        · simp
      · exact ih _ b hb hn

theorem sendBatches_all_ok {α : Type} (accept : List α → Bool) :
    ∀ bs : List (List α), (∀ b ∈ bs, accept b = true) →
      sendBatches accept bs = (bs, true) := by
  intro bs
  induction bs with
  | nil => intro; rfl
  | cons b rest ih =>
    intro h
    have hb : accept b = true := h b (by simp)
    simp only [sendBatches, hb, if_true]
    rw [ih (fun b' hb' => h b' (List.mem_cons_of_mem b hb'))]

theorem sendBatches_first_fail {α : Type} (accept : List α → Bool) :
    ∀ (pre : List (List α)) (b : List α) (post : List (List α)),
      (∀ b' ∈ pre, accept b' = true) → accept b = false →
      sendBatches accept (pre ++ b :: post) = (pre ++ [b], false) := by
  intro pre
  induction pre with
  | nil =>
    intro b post _ hb
    simp [sendBatches, hb]
  | cons p rest ih =>
    intro b post hpre hb
    have hp : accept p = true := hpre p (by simp)
    simp only [List.cons_append, sendBatches, hp, if_true, List.append_eq]
    rw [ih b post (fun b' hb' => hpre b' (List.mem_cons_of_mem p hb')) hb]

/-- Claim C8: a non-empty item list is split into consecutive batches of the
configured batch size (20 when the configured size is not positive), every
item lies in exactly one batch (the batches concatenate back to the list),
each batch is one outbound request issued in order, all batches are sent
exactly once when the remote accepts them all, and the call fails on the
first rejected batch: the requests issued are then exactly the accepted
ones followed by that single rejected batch, none resubmitted and none of
the later batches sent. -/
theorem C8_batching (cfg : PocketConfig) (accept : List PItem → Bool)
    (items : List PItem) (h : items ≠ []) :
    0 < effectiveBatch cfg ∧
    (chunks (effectiveBatch cfg) items).flatten = items ∧
    (∀ b ∈ chunks (effectiveBatch cfg) items,
      b ≠ [] ∧ b.length ≤ effectiveBatch cfg) ∧
    ((∀ b ∈ chunks (effectiveBatch cfg) items, accept b = true) →
      addItems cfg accept items = (chunks (effectiveBatch cfg) items, true)) ∧
    (∀ pre b post, chunks (effectiveBatch cfg) items = pre ++ b :: post →
      (∀ b' ∈ pre, accept b' = true) → accept b = false →
      addItems cfg accept items = (pre ++ [b], false)) := by
  have hne : items.isEmpty = false := by
    cases items with
    | nil => exact absurd rfl h
    | cons x xs => rfl
  have hn : 0 < effectiveBatch cfg := by
    unfold effectiveBatch
    split
    · omega
    · rename_i hb
      omega
  refine ⟨hn, ?_, ?_, ?_, ?_⟩
  · exact chunksAux_join _ _ items (le_refl _) hn
  · intro b hb
    exact chunksAux_mem _ _ items b hb hn
  · intro hall
    unfold addItems
    rw [hne]
    simp only [Bool.false_eq_true, if_false]
    exact sendBatches_all_ok accept _ hall
  · intro pre b post hchunks hpre hb
    unfold addItems
    rw [hne]
    simp only [Bool.false_eq_true, if_false]
    rw [hchunks]
    exact sendBatches_first_fail accept pre b post hpre hb

/-- Witness for C8 with batch size 2 over three items: two batches, the
second rejected. -/
theorem C8_witness :
    0 < effectiveBatch ⟨2⟩ ∧
    (chunks (effectiveBatch ⟨2⟩)
      [(⟨"u1", "a", 1, []⟩ : PItem), ⟨"u2", "b", 2, []⟩, ⟨"u3", "c", 3, []⟩]).flatten =
      [(⟨"u1", "a", 1, []⟩ : PItem), ⟨"u2", "b", 2, []⟩, ⟨"u3", "c", 3, []⟩] ∧
    (∀ b ∈ chunks (effectiveBatch ⟨2⟩)
      [(⟨"u1", "a", 1, []⟩ : PItem), ⟨"u2", "b", 2, []⟩, ⟨"u3", "c", 3, []⟩],
      b ≠ [] ∧ b.length ≤ effectiveBatch ⟨2⟩) ∧
    ((∀ b ∈ chunks (effectiveBatch ⟨2⟩)
      [(⟨"u1", "a", 1, []⟩ : PItem), ⟨"u2", "b", 2, []⟩, ⟨"u3", "c", 3, []⟩],
      (fun l : List PItem => l.length == 2) b = true) →
      addItems ⟨2⟩ (fun l => l.length == 2)
        [⟨"u1", "a", 1, []⟩, ⟨"u2", "b", 2, []⟩, ⟨"u3", "c", 3, []⟩] =
        (chunks (effectiveBatch ⟨2⟩)
          [(⟨"u1", "a", 1, []⟩ : PItem), ⟨"u2", "b", 2, []⟩, ⟨"u3", "c", 3, []⟩], true)) ∧
    (∀ pre b post, chunks (effectiveBatch ⟨2⟩)
        [(⟨"u1", "a", 1, []⟩ : PItem), ⟨"u2", "b", 2, []⟩, ⟨"u3", "c", 3, []⟩] =
        pre ++ b :: post →
      (∀ b' ∈ pre, (fun l : List PItem => l.length == 2) b' = true) →
      (fun l : List PItem => l.length == 2) b = false →
      addItems ⟨2⟩ (fun l => l.length == 2)
        [⟨"u1", "a", 1, []⟩, ⟨"u2", "b", 2, []⟩, ⟨"u3", "c", 3, []⟩] =
        (pre ++ [b], false)) :=
  C8_batching ⟨2⟩ (fun l => l.length == 2)
    [⟨"u1", "a", 1, []⟩, ⟨"u2", "b", 2, []⟩, ⟨"u3", "c", 3, []⟩] (by decide)

/-- `readOldFeed` (src/internal/feed/feed.go): an absent snapshot file is
`nil, nil`; a present one is parsed (`parse` models `gofeed.Parser.Parse`,
file contents are modelled as `String`), and a parse failure aborts the
source. -/
def readOldFeed (parse : String → Except String Feed) (snap : Option String) :
    Except String (Option Feed) :=
  match snap with
  | none => Except.ok none
  | some b => (parse b).map some

/-- The per-source inputs the external world supplies to one run:
the current on-disk snapshot file (`none` = absent) and the result of
downloading the feed (`downloadFile`; bytes on success). -/
structure SourceInputs where
  snap : Option String
  fetched : Except String String

/-- What one source's processing leaves behind: the snapshot file after the
source is done (`findNewItems` renames the freshly downloaded temp file over
it exactly when the consumer returned `saved = true`), the deltas added to
main's `totalItems` and `totalItemErrors` counters, the Pocket requests
issued, and the error `findNewItems` returned (logged by `FindNewItems`). -/
structure SourceOutcome where
  snapAfter : Option String
  dItems : Nat
  dErrors : Nat
  requests : List (List PItem)
  err : Option String
deriving DecidableEq

/-- The Pocket item built by main's consumer for one new item: the final
URL is the content server URL (abstracted by `mkUrl`) when the source
forces article view, else the item's own URL. -/
def toPItem (useServer : Bool) (mkUrl : Item → String) (it : Item) : PItem :=
  { url := if useServer then mkUrl it else it.url,
    title := it.title, time := it.time, tags := it.tags }

/-- `findNewItems` (src/internal/feed/feed.go, lines 79-124) combined with
the consumer that `main` (src/feed-to-pocket.go, lines 125-176) installs:

1. read and parse the old snapshot (failure aborts the source, file kept);
2. download the new feed into a temp file and parse it (ditto);
3. diff via `compareFeedItems`;
4. consumer: count the items into `totalItems` first; in dry-run mode
   return `(false, nil)` straight away; otherwise, when the source forces
   article view and the loop runs at least once, start the content server
   (`serverStart`; failure returns the error with nothing sent), build the
   Pocket items and call `AddItems` (the `accept` oracle answers each
   outbound request); on delivery error count the items into
   `totalItemErrors` and return `(false, err)`, else wait for the published
   contents to be fetched and return `(true, nil)`;
5. back in `findNewItems`: if `saved`, rename the temp file over the
   snapshot, so the file now holds the freshly downloaded bytes; otherwise
   the file is untouched. -/
def processSource (parse : String → Except String Feed) (dryRun : Bool)
    (pcfg : PocketConfig) (accept : List PItem → Bool)
    (serverStart : Except String Unit) (mkUrl : Item → String)
    (src : FSource) (inp : SourceInputs) : SourceOutcome :=
  match readOldFeed parse inp.snap with
  | .error e => ⟨inp.snap, 0, 0, [], some e⟩
  | .ok oldFeed =>
    match inp.fetched with
    | .error e => ⟨inp.snap, 0, 0, [], some e⟩
    | .ok newBytes =>
      match parse newBytes with
      | .error e => ⟨inp.snap, 0, 0, [], some e⟩
      | .ok newFeed =>
        let items := compareFeedItems oldFeed newFeed src
        if dryRun then ⟨inp.snap, items.length, 0, [], none⟩
        else
          match (if src.useServer && !items.isEmpty then serverStart
                 else Except.ok ()) with
          | .error e => ⟨inp.snap, items.length, 0, [], some e⟩
          | .ok _ =>
            let pItems := items.map (toPItem src.useServer mkUrl)
            let r := addItems pcfg accept pItems
            if r.2 then ⟨some newBytes, items.length, 0, r.1, none⟩
            else ⟨inp.snap, items.length, items.length, r.1,
              some "calling Pocket API to add new items"⟩

/-- Lexicographic comparison of strings as character lists, the order
`sort.Strings` uses (Go compares strings bytewise; on the identifiers here
that coincides with code-point order). -/
def charListLe : List Char → List Char → Bool
  | [], _ => true
  | _ :: _, [] => false
  | a :: as, b :: bs =>
    if a.val < b.val then true
    else if b.val < a.val then false
    else charListLe as bs

/-- Insertion step for the id sort in `FindNewItems` (`sort.Strings`). -/
def insertSorted (x : String × FSource) :
    List (String × FSource) → List (String × FSource)
  | [] => [x]
  | y :: ys =>
    if charListLe x.1.data y.1.data then x :: y :: ys
    else y :: insertSorted x ys

/-- The configured sources in ascending id order, modelling the
`sort.Strings(ids)` loop order of `FindNewItems` (a Go map has unique
keys, so sorting the keys and indexing the map is sorting the pairs). -/
def sortByKey (l : List (String × FSource)) : List (String × FSource) :=
  l.foldr insertSorted []

/-- `feed.Config`: the global start date and the source map, as an
association list. -/
structure FeedConfig where
  startDate : Int
  sources : List (String × FSource)

/-- The per-source fixups at the top of the `FindNewItems` loop: a zero
per-source start date falls back to the global one, and the map key is
written into `src.Id`. -/
def resolveSource (cfgStart : Int) (sid : String) (s : FSource) : FSource :=
  { s with
    id := sid
    startDate := if s.startDate == 0 then cfgStart else s.startDate }

/-- `FindNewItems` (src/internal/feed/feed.go, lines 48-77): iterate the
sources in ascending id order; a failing source only logs its error
(`log.Errorf`) and the loop continues, so every source is processed and
each source's outcome is a function of that source's own inputs. -/
def findNewItemsAll (parse : String → Except String Feed) (dryRun : Bool)
    (pcfg : PocketConfig) (acceptOf : String → List PItem → Bool)
    (serverStart : Except String Unit) (mkUrl : Item → String)
    (cfg : FeedConfig) (world : String → SourceInputs) :
    List (String × SourceOutcome) :=
  (sortByKey cfg.sources).map fun p =>
    (p.1, processSource parse dryRun pcfg (acceptOf p.1) serverStart mkUrl
      (resolveSource cfg.startDate p.1 p.2) (world p.1))

theorem addItems_nil (pcfg : PocketConfig) (accept : List PItem → Bool) :
    addItems pcfg accept [] = ([], true) := rfl

/-- A concrete stand-in for the feed parser that parses every file to the
empty feed, used by witnesses. -/
def parseNil : String → Except String Feed := fun _ => Except.ok []

/-- A concrete stand-in for the feed parser that parses the downloaded
bytes `NEW` to a one-item feed and everything else to the empty feed, used
by witnesses. -/
def parseOne : String → Except String Feed := fun b =>
  if b == "NEW" then Except.ok [⟨"g", "l", "T", some 5, none, "d"⟩]
  else Except.ok []

/-- Claim C1, counterexample: a source whose fetch and parse succeed but
whose diff is empty (both feeds parse to no items) still gets its snapshot
file replaced: the consumer returns `saved = true` (AddItems of an empty
list is a no-op success) and `findNewItems` renames the fresh download over
the old file, so the snapshot changes from `OLD` to `NEW` even though no new
item exists.  No outbound Pocket request is made. -/
theorem C1_counterexample :
    processSource parseNil false ⟨20⟩ (fun _ => true)
        (Except.ok ()) (fun _ => "") ⟨"s", "n", "u", false, 0⟩
        ⟨some "OLD", Except.ok "NEW"⟩ =
      ⟨some "NEW", 0, 0, [], none⟩ ∧
    (some "NEW" : Option String) ≠ some "OLD" := by
  constructor
  · rfl
  · decide

/-- Claim C1 as amended: when a source's fetch and parse succeed and the
diff is empty, no delivery request with effect is issued (the request list
is empty) and nothing is counted as failed — but the snapshot file is not
left untouched: outside dry-run mode it is replaced with the freshly
downloaded feed bytes, because the consumer reports success for an empty
batch; only in dry-run mode is the file left as it was. -/
theorem C1_no_new_items (parse : String → Except String Feed) (dryRun : Bool)
    (pcfg : PocketConfig) (accept : List PItem → Bool)
    (serverStart : Except String Unit) (mkUrl : Item → String)
    (src : FSource) (snapB : Option String) (newB : String)
    (oldF : Option Feed) (newF : Feed)
    (h1 : readOldFeed parse snapB = .ok oldF) (h2 : parse newB = .ok newF)
    (h3 : compareFeedItems oldF newF src = []) :
    (processSource parse dryRun pcfg accept serverStart mkUrl src
        ⟨snapB, Except.ok newB⟩).requests = [] ∧
    (processSource parse dryRun pcfg accept serverStart mkUrl src
        ⟨snapB, Except.ok newB⟩).dErrors = 0 ∧
    (processSource parse dryRun pcfg accept serverStart mkUrl src
        ⟨snapB, Except.ok newB⟩).err = none ∧
    (processSource parse dryRun pcfg accept serverStart mkUrl src
        ⟨snapB, Except.ok newB⟩).snapAfter =
      (if dryRun then snapB else some newB) := by
  have key : processSource parse dryRun pcfg accept serverStart mkUrl src
      ⟨snapB, Except.ok newB⟩ =
      (if dryRun then ⟨snapB, 0, 0, [], none⟩
       else ⟨some newB, 0, 0, [], none⟩ : SourceOutcome) := by
    unfold processSource
    simp only [h1, h2, h3]
    cases dryRun with
    | true => rfl
    | false =>
      simp only [if_false, Bool.false_eq_true, List.isEmpty_nil, Bool.not_true,
        Bool.and_false, List.map_nil, addItems_nil, List.length_nil, if_true]
  rw [key]
  cases dryRun <;> simp

/-- Witness for the amended C1 at concrete inputs (not dry-run). -/
theorem C1_witness :
    readOldFeed parseNil (some "OLD") = .ok (some []) ∧
    parseNil "NEW" = .ok [] ∧
    compareFeedItems (some []) [] ⟨"s", "n", "u", false, 0⟩ = [] ∧
    (processSource parseNil false ⟨20⟩ (fun _ => true)
        (Except.ok ()) (fun _ => "") ⟨"s", "n", "u", false, 0⟩
        ⟨some "OLD", Except.ok "NEW"⟩).requests = [] ∧
    (processSource parseNil false ⟨20⟩ (fun _ => true)
        (Except.ok ()) (fun _ => "") ⟨"s", "n", "u", false, 0⟩
        ⟨some "OLD", Except.ok "NEW"⟩).snapAfter = some "NEW" := by
  refine ⟨rfl, rfl, rfl, ?_, ?_⟩
  · exact (C1_no_new_items parseNil false ⟨20⟩
      (fun _ => true) (Except.ok ()) (fun _ => "") ⟨"s", "n", "u", false, 0⟩
      (some "OLD") "NEW" (some []) [] rfl rfl rfl).1
  · exact (C1_no_new_items parseNil false ⟨20⟩
      (fun _ => true) (Except.ok ()) (fun _ => "") ⟨"s", "n", "u", false, 0⟩
      (some "OLD") "NEW" (some []) [] rfl rfl rfl).2.2.2

/-- Claim C9: in dry-run mode the consumer returns before any Pocket call,
so no request is issued and nothing is counted as failed; the new items are
still counted into the run totals (`totalItems` is incremented before the
dry-run check), and the consumer returns `saved = false`, so the snapshot
file is never replaced. -/
theorem C9_dry_run (parse : String → Except String Feed)
    (pcfg : PocketConfig) (accept : List PItem → Bool)
    (serverStart : Except String Unit) (mkUrl : Item → String)
    (src : FSource) (snapB : Option String) (newB : String)
    (oldF : Option Feed) (newF : Feed)
    (h1 : readOldFeed parse snapB = .ok oldF) (h2 : parse newB = .ok newF) :
    (processSource parse true pcfg accept serverStart mkUrl src
        ⟨snapB, Except.ok newB⟩).requests = [] ∧
    (processSource parse true pcfg accept serverStart mkUrl src
        ⟨snapB, Except.ok newB⟩).dItems =
      (compareFeedItems oldF newF src).length ∧
    (processSource parse true pcfg accept serverStart mkUrl src
        ⟨snapB, Except.ok newB⟩).dErrors = 0 ∧
    (processSource parse true pcfg accept serverStart mkUrl src
        ⟨snapB, Except.ok newB⟩).snapAfter = snapB ∧
    (processSource parse true pcfg accept serverStart mkUrl src
        ⟨snapB, Except.ok newB⟩).err = none := by
  have key : processSource parse true pcfg accept serverStart mkUrl src
      ⟨snapB, Except.ok newB⟩ =
      ⟨snapB, (compareFeedItems oldF newF src).length, 0, [], none⟩ := by
    unfold processSource
    simp only [h1, h2]
    rfl
  rw [key]
  simp

/-- Witness for C9: a dry run over a feed with one genuinely new item
counts it but sends nothing and keeps the snapshot. -/
theorem C9_witness :
    readOldFeed parseOne (some "OLD") = .ok (some []) ∧
    parseOne "NEW" = .ok [⟨"g", "l", "T", some 5, none, "d"⟩] ∧
    (processSource parseOne true ⟨20⟩ (fun _ => true) (Except.ok ())
        (fun _ => "") ⟨"s", "n", "u", false, 0⟩
        ⟨some "OLD", Except.ok "NEW"⟩).dItems = 1 ∧
    (processSource parseOne true ⟨20⟩ (fun _ => true) (Except.ok ())
        (fun _ => "") ⟨"s", "n", "u", false, 0⟩
        ⟨some "OLD", Except.ok "NEW"⟩).snapAfter = some "OLD" := by
  refine ⟨rfl, rfl, ?_, ?_⟩
  · have h := C9_dry_run parseOne ⟨20⟩ (fun _ => true) (Except.ok ())
      (fun _ => "") ⟨"s", "n", "u", false, 0⟩ (some "OLD") "NEW" (some [])
      [⟨"g", "l", "T", some 5, none, "d"⟩] rfl rfl
    rw [h.2.1]
    decide
  · exact (C9_dry_run parseOne ⟨20⟩ (fun _ => true) (Except.ok ())
      (fun _ => "") ⟨"s", "n", "u", false, 0⟩ (some "OLD") "NEW" (some [])
      [⟨"g", "l", "T", some 5, none, "d"⟩] rfl rfl).2.2.2.1

/-- Claim C5: when the Pocket call for a source's batch fails, that source's
snapshot file keeps its pre-run contents, all of the source's new items are
counted as failed, the per-source error is reported, and the run still
processes every configured source, each from its own inputs — the failure
neither aborts the run nor affects any other source's outcome. -/
theorem C5_delivery_failure_isolated (parse : String → Except String Feed)
    (pcfg : PocketConfig) (acceptOf : String → List PItem → Bool)
    (serverStart : Except String Unit) (mkUrl : Item → String)
    (cfg : FeedConfig) (world : String → SourceInputs)
    (sid : String) (s : FSource) (oldF : Option Feed) (newB : String)
    (newF : Feed)
    (hmem : (sid, s) ∈ sortByKey cfg.sources)
    (h1 : readOldFeed parse (world sid).snap = .ok oldF)
    (h2 : (world sid).fetched = .ok newB)
    (h3 : parse newB = .ok newF)
    (h6 : serverStart = .ok ())
    (h7 : (addItems pcfg (acceptOf sid)
      ((compareFeedItems oldF newF (resolveSource cfg.startDate sid s)).map
        (toPItem (resolveSource cfg.startDate sid s).useServer mkUrl))).2 =
        false) :
    (processSource parse false pcfg (acceptOf sid) serverStart mkUrl
        (resolveSource cfg.startDate sid s) (world sid)).snapAfter =
      (world sid).snap ∧
    (processSource parse false pcfg (acceptOf sid) serverStart mkUrl
        (resolveSource cfg.startDate sid s) (world sid)).dErrors =
      (compareFeedItems oldF newF (resolveSource cfg.startDate sid s)).length ∧
    (processSource parse false pcfg (acceptOf sid) serverStart mkUrl
        (resolveSource cfg.startDate sid s) (world sid)).err.isSome = true ∧
    (sid, processSource parse false pcfg (acceptOf sid) serverStart mkUrl
        (resolveSource cfg.startDate sid s) (world sid)) ∈
      findNewItemsAll parse false pcfg acceptOf serverStart mkUrl cfg world ∧
    ∀ q ∈ sortByKey cfg.sources,
      (q.1, processSource parse false pcfg (acceptOf q.1) serverStart mkUrl
        (resolveSource cfg.startDate q.1 q.2) (world q.1)) ∈
        findNewItemsAll parse false pcfg acceptOf serverStart mkUrl cfg world := by
  have key : processSource parse false pcfg (acceptOf sid) serverStart mkUrl
      (resolveSource cfg.startDate sid s) (world sid) =
      ⟨(world sid).snap,
        (compareFeedItems oldF newF (resolveSource cfg.startDate sid s)).length,
        (compareFeedItems oldF newF (resolveSource cfg.startDate sid s)).length,
        (addItems pcfg (acceptOf sid)
          ((compareFeedItems oldF newF (resolveSource cfg.startDate sid s)).map
            (toPItem (resolveSource cfg.startDate sid s).useServer mkUrl))).1,
        some "calling Pocket API to add new items"⟩ := by
    unfold processSource
    simp only [h1, h2, h3, h6, ite_self, h7, Bool.false_eq_true, if_false]
  refine ⟨?_, ?_, ?_, ?_, ?_⟩
  · rw [key]
  · rw [key]
  · rw [key]; rfl
  · exact List.mem_map_of_mem _ hmem
  · intro q hq
    exact List.mem_map_of_mem _ hq

/-- A two-source configuration used by the C5 witness. -/
def cfgW : FeedConfig :=
  ⟨0, [("a", ⟨"", "nA", "uA", false, 0⟩), ("b", ⟨"", "nB", "uB", false, 0⟩)]⟩

/-- The concrete per-source inputs used by the C5 witness: every source has
an `OLD` snapshot on disk and downloads `NEW` successfully. -/
def worldW : String → SourceInputs := fun _ => ⟨some "OLD", Except.ok "NEW"⟩

/-- Witness for C5: source `a`'s one new item is rejected by the remote
service; its snapshot stays `OLD`, its item is counted as failed, and both
sources still appear in the run's outcome list. -/
theorem C5_witness :
    (processSource parseOne false ⟨20⟩ ((fun _ _ => false) "a") (Except.ok ())
        (fun _ => "") (resolveSource cfgW.startDate "a" ⟨"", "nA", "uA", false, 0⟩)
        (worldW "a")).snapAfter = (worldW "a").snap ∧
    (processSource parseOne false ⟨20⟩ ((fun _ _ => false) "a") (Except.ok ())
        (fun _ => "") (resolveSource cfgW.startDate "a" ⟨"", "nA", "uA", false, 0⟩)
        (worldW "a")).dErrors =
      (compareFeedItems (some []) [⟨"g", "l", "T", some 5, none, "d"⟩]
        (resolveSource cfgW.startDate "a" ⟨"", "nA", "uA", false, 0⟩)).length ∧
    (processSource parseOne false ⟨20⟩ ((fun _ _ => false) "a") (Except.ok ())
        (fun _ => "") (resolveSource cfgW.startDate "a" ⟨"", "nA", "uA", false, 0⟩)
        (worldW "a")).err.isSome = true ∧
    ("a", processSource parseOne false ⟨20⟩ ((fun _ _ => false) "a")
        (Except.ok ()) (fun _ => "")
        (resolveSource cfgW.startDate "a" ⟨"", "nA", "uA", false, 0⟩)
        (worldW "a")) ∈
      findNewItemsAll parseOne false ⟨20⟩ (fun _ _ => false) (Except.ok ())
        (fun _ => "") cfgW worldW ∧
    ∀ q ∈ sortByKey cfgW.sources,
      (q.1, processSource parseOne false ⟨20⟩ ((fun _ _ => false) q.1)
        (Except.ok ()) (fun _ => "")
        (resolveSource cfgW.startDate q.1 q.2) (worldW q.1)) ∈
        findNewItemsAll parseOne false ⟨20⟩ (fun _ _ => false) (Except.ok ())
          (fun _ => "") cfgW worldW :=
  C5_delivery_failure_isolated parseOne ⟨20⟩ (fun _ _ => false) (Except.ok ())
    (fun _ => "") cfgW worldW "a" ⟨"", "nA", "uA", false, 0⟩ (some [])
    "NEW" [⟨"g", "l", "T", some 5, none, "d"⟩]
    (by decide) rfl rfl rfl rfl (by decide)

/-- A published content record (`http_server.Content`): the item id, the
HTML document, the full URL (path part; scheme and host are routing, not
handler logic), and `doneTokens`, the number of values currently buffered
in the capacity-1 `Done` channel (0 or 1). -/
structure Content where
  id : String
  document : String
  fullUrl : String
  doneTokens : Nat
deriving DecidableEq

/-- The content server (`http_server.Server`): the `random_url` flag, the
path of the configured base URL, and the `Contents` map (insertion at the
front models Go map assignment; lookup takes the most recent binding). -/
structure Server where
  randomUrl : Bool
  basePath : String
  contents : List (String × Content)
deriving DecidableEq

/-- Go map read `server.Contents[hashId]` (`nil` when absent). -/
def lookupContent : List (String × Content) → String → Option Content
  | [], _ => none
  | (k, c) :: rest, key => if k == key then some c else lookupContent rest key

/-- The non-blocking send `select { case content.Done <- nil: default: }` on
the buffered capacity-1 channel: deposit a value if there is room, else do
nothing; never blocks. -/
def sendNB (tokens : Nat) : Nat := if tokens < 1 then tokens + 1 else tokens

/-- Apply the non-blocking completion send to the content stored under
`key` (the first binding, which is the one `lookupContent` returns). -/
def signalDone : List (String × Content) → String → List (String × Content)
  | [], _ => []
  | (k, c) :: rest, key =>
    if k == key then (k, { c with doneTokens := sendNB c.doneTokens }) :: rest
    else (k, c) :: signalDone rest key

/-- `strings.CutSuffix`: strip `suf` from the end of `s`, with a flag
telling whether it was present. -/
def strCutSuffix (s suf : String) : String × Bool :=
  if suf.data.length ≤ s.data.length ∧
      s.data.drop (s.data.length - suf.data.length) = suf.data then
    (String.mk (s.data.take (s.data.length - suf.data.length)), true)
  else (s, false)

/-- `path.Base`: the last element of a path — empty path gives `.`, a path
of only slashes gives `/`, otherwise trailing slashes are removed and the
part after the last `/` is returned. -/
def pathBase (s : String) : String :=
  if s.data.isEmpty then "."
  else
    let l := (s.data.reverse.dropWhile (fun ch => ch == '/')).reverse
    if l.isEmpty then "/"
    else String.mk (l.reverse.takeWhile (fun ch => ch != '/')).reverse

/-- An HTTP response: status code and body. -/
structure HResp where
  status : Nat
  body : String
deriving DecidableEq

/-- The body `http.NotFound` writes. -/
def notFoundResp : HResp := ⟨404, "404 page not found\n"⟩

/-- The `GET /content/` handler registered in `NewServer`
(src/internal/http_server/http_server.go, lines 64-85): take the base of
the request path, cut the `.html` suffix (404 if absent), look the hash up
in the contents map (404 if absent), else write the stored document with
status 200 and make the non-blocking completion send on that content's
`Done` channel.  The function is total: no branch blocks. -/
def handleGet (srv : Server) (reqPath : String) : HResp × Server :=
  let cut := strCutSuffix (pathBase reqPath) ".html"
  if !cut.2 then (notFoundResp, srv)
  else
    match lookupContent srv.contents cut.1 with
    | none => (notFoundResp, srv)
    | some c =>
      (⟨200, c.document⟩,
       { srv with contents := signalDone srv.contents cut.1 })

/-- Request routing: the handler is registered for the pattern
`GET /content/`, which `http.ServeMux` matches against the whole `/content/`
subtree; any other path is 404. -/
def dispatchGet (srv : Server) (reqPath : String) : HResp × Server :=
  if "/content/".data.isPrefixOf reqPath.data then handleGet srv reqPath
  else (notFoundResp, srv)

/-- The content-addressed key `ServeContent` computes: md5 (abstracted as a
parameter, with `salt` standing for one draw of `util.RandString(8)`) of
the item id, salted when `random_url` is configured. -/
def contentKey (md5hex : String → String) (salt : String) (srv : Server)
    (id : String) : String :=
  if srv.randomUrl then md5hex (id ++ salt) else md5hex id

/-- `ServeContent` (src/internal/http_server/http_server.go, lines
100-118): compute the key, build the full URL by joining the base URL with
`content` and `key + ".html"`, store a fresh record with an empty buffered
`Done` channel in the contents map, and return it. -/
def serveContent (md5hex : String → String) (salt : String) (srv : Server)
    (id document : String) : Content × Server :=
  let hashId := contentKey md5hex salt srv id
  let c : Content :=
    ⟨id, document, srv.basePath ++ "/content/" ++ hashId ++ ".html", 0⟩
  (c, { srv with contents := (hashId, c) :: srv.contents })

/-- Iterated GETs of a fixed path, for the claim that a published document
is served on every fetch. -/
def getMany (srv : Server) (p : String) : Nat → Server
  | 0 => srv
  | n + 1 => getMany (handleGet srv p).2 p n

/-- Events on one published document's completion channel: `fetch` is the
handler serving the document (ending in the non-blocking send), `waitRecv`
is the orchestrator's single blocking receive `<-sc.Done`. -/
inductive CEv where
  | fetch
  | waitRecv
deriving DecidableEq

/-- Channel-and-waiter state for one published document: the number of
values buffered in the capacity-1 `Done` channel, and whether the waiting
goroutine in `main` has already completed its one receive. -/
structure CSt where
  tokens : Nat
  waiterDone : Bool
deriving DecidableEq

/-- One step of the synchronization protocol.  A `fetch` is always enabled
(the handler's send never blocks, by `sendNB`); the waiter's receive is
enabled only while a value is buffered and the waiter has not finished
(main's goroutine executes exactly one `<-sc.Done`). -/
def cstep (s : CSt) : CEv → Option CSt
  | .fetch => some ⟨sendNB s.tokens, s.waiterDone⟩
  | .waitRecv =>
    if s.tokens > 0 ∧ s.waiterDone = false then some ⟨s.tokens - 1, true⟩
    else none

/-- Run a sequence of events from a state; `none` when some event was not
enabled. -/
def crun (s : CSt) : List CEv → Option CSt
  | [] => some s
  | e :: es =>
    match cstep s e with
    | none => none
    | some s' => crun s' es

theorem takeWhile_append_of_all {p : Char → Bool} :
    ∀ (l : List Char) (c : Char) (r : List Char), (∀ a ∈ l, p a = true) →
      p c = false → List.takeWhile p (l ++ c :: r) = l := by
  intro l
  induction l with
  | nil =>
    intro c r _ hc
    simp [List.takeWhile_cons, hc]
  | cons x xs ih =>
    intro c r hall hc
    have hx : p x = true := hall x (by simp)
    simp only [List.cons_append, List.takeWhile_cons, hx, if_true]
    rw [ih c r (fun a ha => hall a (List.mem_cons_of_mem x ha)) hc]

theorem pathBase_of_data {s : String} {pre seg : List Char}
    (hdata : s.data = pre ++ '/' :: seg) (hseg : seg ≠ [])
    (hns : '/' ∉ seg) : pathBase s = String.mk seg := by
  unfold pathBase
  rw [hdata]
  have hne : (pre ++ '/' :: seg).isEmpty = false := by
    simp [List.isEmpty_eq_false_iff_exists_mem]
  rw [hne]
  simp only [Bool.false_eq_true, if_false]
  cases hrev : seg.reverse with
  | nil => exact absurd (by simpa using congrArg List.reverse hrev) hseg
  | cons x xs =>
    have hx : x ∈ seg := by
      have : x ∈ seg.reverse := by rw [hrev]; simp
      simpa using this
    have hxs : (x == '/') = false := by
      have := hns
      simp only [beq_eq_false_iff_ne]
      intro hcontra
      exact hns (hcontra ▸ hx)
    have hrw : (pre ++ '/' :: seg).reverse = x :: (xs ++ '/' :: pre.reverse) := by
      rw [List.reverse_append, List.reverse_cons]
      rw [hrev]
      simp
    rw [hrw]
    rw [List.dropWhile_cons]
    rw [hxs]
    simp only [Bool.false_eq_true, if_false]
    have hne2 : ((x :: (xs ++ '/' :: pre.reverse)).reverse).isEmpty = false := by
      simp
    rw [hne2]
    simp only [Bool.false_eq_true, if_false]
    rw [List.reverse_reverse]
    have hall : ∀ a ∈ x :: xs, (a != '/') = true := by
      intro a ha
      have : a ∈ seg := by
        have : a ∈ seg.reverse := by rw [hrev]; exact ha
        simpa using this
      simp only [bne_iff_ne]
      intro hc
      exact hns (hc ▸ this)
    have hsl : (('/' : Char) != '/') = false := by decide
    have := takeWhile_append_of_all (p := fun ch => ch != '/')
      (x :: xs) '/' pre.reverse hall hsl
    rw [show x :: (xs ++ '/' :: pre.reverse) = (x :: xs) ++ '/' :: pre.reverse
      from by simp] at *
    rw [this]
    have : (x :: xs).reverse = seg := by
      rw [← hrev, List.reverse_reverse]
    rw [this]

theorem strCutSuffix_of_append (l : List Char) (suf : String) :
    strCutSuffix (String.mk (l ++ suf.data)) suf = (String.mk l, true) := by
  unfold strCutSuffix
  have hlen : (String.mk (l ++ suf.data)).data.length - suf.data.length =
      l.length := by
    simp
  have hcond : suf.data.length ≤ (String.mk (l ++ suf.data)).data.length ∧
      (String.mk (l ++ suf.data)).data.drop
        ((String.mk (l ++ suf.data)).data.length - suf.data.length) =
        suf.data := by
    constructor
    · simp
    · rw [hlen]
      exact List.drop_left l suf.data
  rw [if_pos hcond, hlen]
  rw [show (String.mk (l ++ suf.data)).data = l ++ suf.data from rfl]
  rw [List.take_left l suf.data]

theorem pathBase_served (bp k : String) (hk : '/' ∉ k.data) :
    pathBase (bp ++ "/content/" ++ k ++ ".html") =
      String.mk (k.data ++ ".html".data) := by
  have hdata : (bp ++ "/content/" ++ k ++ ".html").data =
      (bp.data ++ ("/content" : String).data) ++
        '/' :: (k.data ++ (".html" : String).data) := by
    simp only [String.data_append]
    simp [List.append_assoc]
  refine pathBase_of_data hdata ?_ ?_
  · simp
  · intro hmem
    rcases List.mem_append.mp hmem with h | h
    · exact hk h
    · revert h
      decide

theorem lookupContent_signalDone (m : List (String × Content)) (k : String) :
    lookupContent (signalDone m k) k =
      (lookupContent m k).map
        (fun c => { c with doneTokens := sendNB c.doneTokens }) := by
  induction m with
  | nil => rfl
  | cons p rest ih =>
    obtain ⟨k', c⟩ := p
    by_cases h : (k' == k) = true
    · simp [signalDone, lookupContent, h]
    · have h' : (k' == k) = false := by simpa using h
      simp [signalDone, lookupContent, h', ih]

theorem lookupContent_signalDone_other (m : List (String × Content))
    (k k' : String) (h : (k == k') = false) :
    lookupContent (signalDone m k') k = lookupContent m k := by
  induction m with
  | nil => rfl
  | cons p rest ih =>
    obtain ⟨k0, c⟩ := p
    by_cases h0 : (k0 == k') = true
    · have hk0 : (k0 == k) = false := by
        have h1 : k0 = k' := by simpa using h0
        subst h1
        simpa [BEq.comm] using h
      simp [signalDone, lookupContent, h0, hk0]
    · have h0' : (k0 == k') = false := by simpa using h0
      by_cases h1 : (k0 == k) = true
      · simp [signalDone, lookupContent, h0', h1]
      · have h1' : (k0 == k) = false := by simpa using h1
        simp [signalDone, lookupContent, h0', h1', ih]

theorem handleGet_served (srv : Server) (bp k : String) (c : Content)
    (hk : '/' ∉ k.data) (hlook : lookupContent srv.contents k = some c) :
    handleGet srv (bp ++ "/content/" ++ k ++ ".html") =
      (⟨200, c.document⟩,
       { srv with contents := signalDone srv.contents k }) := by
  unfold handleGet
  rw [pathBase_served bp k hk]
  rw [show (String.mk (k.data ++ (".html" : String).data)) =
    String.mk (k.data ++ (".html" : String).data) from rfl]
  rw [strCutSuffix_of_append k.data ".html"]
  simp only [Bool.not_true, Bool.false_eq_true, if_false]
  rw [show String.mk k.data = k from rfl]
  rw [hlook]

theorem getMany_lookup (bp k : String) (hk : '/' ∉ k.data) :
    ∀ (n : Nat) (srv : Server) (c : Content),
      lookupContent srv.contents k = some c →
      ∃ t, lookupContent
          (getMany srv (bp ++ "/content/" ++ k ++ ".html") n).contents k =
        some { c with doneTokens := t } := by
  intro n
  induction n with
  | zero =>
    intro srv c h
    exact ⟨c.doneTokens, h⟩
  | succ n ih =>
    intro srv c h
    simp only [getMany]
    rw [handleGet_served srv bp k c hk h]
    have hlook2 : lookupContent (signalDone srv.contents k) k =
        some { c with doneTokens := sendNB c.doneTokens } := by
      rw [lookupContent_signalDone, h]
      rfl
    obtain ⟨t, ht⟩ := ih { srv with contents := signalDone srv.contents k }
      { c with doneTokens := sendNB c.doneTokens } hlook2
    exact ⟨t, ht⟩

theorem crun_count_waitRecv : ∀ (evs : List CEv) (s s' : CSt),
    crun s evs = some s' →
    (if s.waiterDone then evs.count CEv.waitRecv = 0
     else evs.count CEv.waitRecv ≤ 1) := by
  intro evs
  induction evs with
  | nil =>
    intro s s' _
    split <;> simp
  | cons e es ih =>
    intro s s' h
    cases e with
    | fetch =>
      simp only [crun, cstep] at h
      have hrec := ih _ _ h
      simp only [List.count_cons] at *
      split
      · rename_i hs
        rw [if_pos hs] at hrec
        simp [hrec]
      · rename_i hs
        rw [if_neg hs] at hrec
        simpa using hrec
    | waitRecv =>
      rw [show crun s (CEv.waitRecv :: es) =
        (match cstep s CEv.waitRecv with
         | none => none
         | some s2 => crun s2 es) from rfl] at h
      by_cases hcond : s.tokens > 0 ∧ s.waiterDone = false
      · rw [show cstep s CEv.waitRecv = some ⟨s.tokens - 1, true⟩ from by
          simp [cstep, hcond]] at h
        have h2 : crun ⟨s.tokens - 1, true⟩ es = some s' := h
        have hrec := ih _ _ h2
        rw [if_pos rfl] at hrec
        have hsw : s.waiterDone = false := hcond.2
        rw [if_neg (by simp [hsw])]
        simp [List.count_cons, hrec]
      · rw [show cstep s CEv.waitRecv = none from by
          simp only [cstep, if_neg hcond]] at h
        simp at h

/-- Claim C6: once a document is published, every GET of its generated URL
returns status 200 with the stored body, no matter how many GETs came
before; on any interleaving of handler fetches with the orchestrator's
single waiting goroutine, the completion signal is received at most once;
the handler's completion send is enabled in every state (the
`select`/`default` never blocks); and a GET whose hash is not in the
contents map returns 404 with the server state unchanged (the 404 path
performs no channel operation). -/
theorem C6_serving_protocol (md5hex : String → String) (salt : String)
    (srv : Server) (id doc : String)
    (hk : '/' ∉ (contentKey md5hex salt srv id).data) :
    (∀ n, (handleGet
        (getMany (serveContent md5hex salt srv id doc).2
          (serveContent md5hex salt srv id doc).1.fullUrl n)
        (serveContent md5hex salt srv id doc).1.fullUrl).1 =
      ⟨200, doc⟩) ∧
    (∀ evs s', crun ⟨0, false⟩ evs = some s' →
      evs.count CEv.waitRecv ≤ 1) ∧
    (∀ s : CSt, (cstep s CEv.fetch).isSome = true) ∧
    (∀ (s : Server) (p : String),
      (strCutSuffix (pathBase p) ".html").2 = true →
      lookupContent s.contents (strCutSuffix (pathBase p) ".html").1 = none →
      handleGet s p = (notFoundResp, s)) := by
  refine ⟨?_, ?_, ?_, ?_⟩
  · intro n
    have hUrl : (serveContent md5hex salt srv id doc).1.fullUrl =
        srv.basePath ++ "/content/" ++ contentKey md5hex salt srv id ++
          ".html" := rfl
    rw [hUrl]
    have hlook : lookupContent (serveContent md5hex salt srv id doc).2.contents
        (contentKey md5hex salt srv id) =
        some (serveContent md5hex salt srv id doc).1 := by
      simp [serveContent, lookupContent]
    obtain ⟨t, ht⟩ := getMany_lookup srv.basePath
      (contentKey md5hex salt srv id) hk n _ _ hlook
    rw [handleGet_served _ srv.basePath (contentKey md5hex salt srv id) _ hk ht]
    rfl
  · intro evs s' h
    have hcount := crun_count_waitRecv evs ⟨0, false⟩ s' h
    simpa using hcount
  · intro s
    rfl
  · intro s p h1 h2
    simp only [handleGet, h1, h2, Bool.not_true, Bool.false_eq_true, if_false]

/-- Witness for C6 at a concrete publish: base path empty, key `k`,
document `D`. -/
theorem C6_witness :
    (∀ n, (handleGet
        (getMany (serveContent (fun _ => "k") "" ⟨false, "", []⟩ "i" "D").2
          (serveContent (fun _ => "k") "" ⟨false, "", []⟩ "i" "D").1.fullUrl n)
        (serveContent (fun _ => "k") "" ⟨false, "", []⟩ "i" "D").1.fullUrl).1 =
      ⟨200, "D"⟩) ∧
    (∀ evs s', crun ⟨0, false⟩ evs = some s' →
      evs.count CEv.waitRecv ≤ 1) ∧
    (∀ s : CSt, (cstep s CEv.fetch).isSome = true) ∧
    (∀ (s : Server) (p : String),
      (strCutSuffix (pathBase p) ".html").2 = true →
      lookupContent s.contents (strCutSuffix (pathBase p) ".html").1 = none →
      handleGet s p = (notFoundResp, s)) :=
  C6_serving_protocol (fun _ => "k") "" ⟨false, "", []⟩ "i" "D" (by decide)

/-- Claim C7: publishing the same item id twice stores two records; when
the two computed content keys differ (which is what the random salt is
for — without it the key is a deterministic hash of the id, so equal ids
are forced to collide), both documents remain in the map and each is served
with status 200 at its own returned URL. -/
theorem C7_independent_documents (md5hex : String → String) (s1 s2 : String)
    (srv : Server) (id d1 d2 : String)
    (hk1 : '/' ∉ (contentKey md5hex s1 srv id).data)
    (hk2 : '/' ∉ (contentKey md5hex s2
      (serveContent md5hex s1 srv id d1).2 id).data)
    (hne : contentKey md5hex s2 (serveContent md5hex s1 srv id d1).2 id ≠
      contentKey md5hex s1 srv id) :
    lookupContent
        (serveContent md5hex s2 (serveContent md5hex s1 srv id d1).2
          id d2).2.contents (contentKey md5hex s1 srv id) =
      some (serveContent md5hex s1 srv id d1).1 ∧
    lookupContent
        (serveContent md5hex s2 (serveContent md5hex s1 srv id d1).2
          id d2).2.contents
        (contentKey md5hex s2 (serveContent md5hex s1 srv id d1).2 id) =
      some (serveContent md5hex s2 (serveContent md5hex s1 srv id d1).2
        id d2).1 ∧
    (handleGet (serveContent md5hex s2 (serveContent md5hex s1 srv id d1).2
        id d2).2
      (serveContent md5hex s1 srv id d1).1.fullUrl).1 = ⟨200, d1⟩ ∧
    (handleGet (serveContent md5hex s2 (serveContent md5hex s1 srv id d1).2
        id d2).2
      (serveContent md5hex s2 (serveContent md5hex s1 srv id d1).2
        id d2).1.fullUrl).1 = ⟨200, d2⟩ := by
  have hbeq : (contentKey md5hex s2 (serveContent md5hex s1 srv id d1).2 id ==
      contentKey md5hex s1 srv id) = false := by
    exact beq_eq_false_iff_ne.mpr hne
  have hl1 : lookupContent
      (serveContent md5hex s2 (serveContent md5hex s1 srv id d1).2
        id d2).2.contents (contentKey md5hex s1 srv id) =
      some (serveContent md5hex s1 srv id d1).1 := by
    rw [show (serveContent md5hex s2 (serveContent md5hex s1 srv id d1).2
        id d2).2.contents =
      (contentKey md5hex s2 (serveContent md5hex s1 srv id d1).2 id,
        (serveContent md5hex s2 (serveContent md5hex s1 srv id d1).2
          id d2).1) ::
      (contentKey md5hex s1 srv id, (serveContent md5hex s1 srv id d1).1) ::
        srv.contents from rfl]
    simp only [lookupContent, hbeq, Bool.false_eq_true, if_false,
      beq_self_eq_true, if_true]
  have hl2 : lookupContent
      (serveContent md5hex s2 (serveContent md5hex s1 srv id d1).2
        id d2).2.contents
      (contentKey md5hex s2 (serveContent md5hex s1 srv id d1).2 id) =
      some (serveContent md5hex s2 (serveContent md5hex s1 srv id d1).2
        id d2).1 := by
    rw [show (serveContent md5hex s2 (serveContent md5hex s1 srv id d1).2
        id d2).2.contents =
      (contentKey md5hex s2 (serveContent md5hex s1 srv id d1).2 id,
        (serveContent md5hex s2 (serveContent md5hex s1 srv id d1).2
          id d2).1) ::
      (contentKey md5hex s1 srv id, (serveContent md5hex s1 srv id d1).1) ::
        srv.contents from rfl]
    simp only [lookupContent, beq_self_eq_true, if_true]
  refine ⟨hl1, hl2, ?_, ?_⟩
  · rw [show (serveContent md5hex s1 srv id d1).1.fullUrl =
      srv.basePath ++ "/content/" ++ contentKey md5hex s1 srv id ++ ".html"
      from rfl]
    rw [show srv.basePath =
      (serveContent md5hex s2 (serveContent md5hex s1 srv id d1).2
        id d2).2.basePath from rfl]
    rw [handleGet_served _ _ _ _ hk1 hl1]
    rfl
  · rw [show (serveContent md5hex s2 (serveContent md5hex s1 srv id d1).2
        id d2).1.fullUrl =
      srv.basePath ++ "/content/" ++
        contentKey md5hex s2 (serveContent md5hex s1 srv id d1).2 id ++
        ".html" from rfl]
    rw [show srv.basePath =
      (serveContent md5hex s2 (serveContent md5hex s1 srv id d1).2
        id d2).2.basePath from rfl]
    rw [handleGet_served _ _ _ _ hk2 hl2]
    rfl

/-- Witness for C7: random-url mode with distinct salts `a` and `b` and the
identity function standing for md5; the keys `ia` and `ib` differ and both
documents are retrievable. -/
theorem C7_witness :
    lookupContent
        (serveContent (fun s => s) "b"
          (serveContent (fun s => s) "a" ⟨true, "", []⟩ "i" "D1").2
          "i" "D2").2.contents
        (contentKey (fun s => s) "a" ⟨true, "", []⟩ "i") =
      some (serveContent (fun s => s) "a" ⟨true, "", []⟩ "i" "D1").1 ∧
    lookupContent
        (serveContent (fun s => s) "b"
          (serveContent (fun s => s) "a" ⟨true, "", []⟩ "i" "D1").2
          "i" "D2").2.contents
        (contentKey (fun s => s) "b"
          (serveContent (fun s => s) "a" ⟨true, "", []⟩ "i" "D1").2 "i") =
      some (serveContent (fun s => s) "b"
        (serveContent (fun s => s) "a" ⟨true, "", []⟩ "i" "D1").2 "i" "D2").1 ∧
    (handleGet (serveContent (fun s => s) "b"
        (serveContent (fun s => s) "a" ⟨true, "", []⟩ "i" "D1").2 "i" "D2").2
      (serveContent (fun s => s) "a" ⟨true, "", []⟩ "i" "D1").1.fullUrl).1 =
      ⟨200, "D1"⟩ ∧
    (handleGet (serveContent (fun s => s) "b"
        (serveContent (fun s => s) "a" ⟨true, "", []⟩ "i" "D1").2 "i" "D2").2
      (serveContent (fun s => s) "b"
        (serveContent (fun s => s) "a" ⟨true, "", []⟩ "i" "D1").2
        "i" "D2").1.fullUrl).1 = ⟨200, "D2"⟩ :=
  C7_independent_documents (fun s => s) "a" "b" ⟨true, "", []⟩ "i" "D1" "D2"
    (by decide) (by decide) (by decide)

/-- Claim C10, counterexample: the handler only inspects `path.Base` of the
request, and the mux pattern `GET /content/` matches the whole subtree, so
the request `/content/extra/k.html` — which is not `/content/` followed by
the stored key `k` and `.html` — still returns the document stored under
`k` with status 200. -/
theorem C10_counterexample :
    (dispatchGet ⟨false, "", [("k", ⟨"i", "D", "/content/k.html", 0⟩)]⟩
        "/content/extra/k.html").1 = ⟨200, "D"⟩ ∧
    ("/content/extra/k.html" : String) ≠ "/content/" ++ "k" ++ ".html" := by
  constructor
  · decide
  · decide

/-- Claim C10 as amended: every URL returned by `ServeContent` ends in
`.html`; a GET whose final path segment does not end in `.html` receives
404 with the server unchanged, even when that segment equals a stored key;
and a request is answered with a document only when its path lies in the
`/content/` subtree and its final path segment is `key + ".html"` for a
stored key — extra path segments between `/content/` and the final segment
are also accepted, so the URL form is not restricted to exactly
`/content/<hash>.html`. -/
theorem C10_url_shape :
    (∀ (md5hex : String → String) (salt : String) (srv : Server)
      (id doc : String), ∃ pre,
      (serveContent md5hex salt srv id doc).1.fullUrl = pre ++ ".html") ∧
    (∀ (s : Server) (p : String),
      (strCutSuffix (pathBase p) ".html").2 = false →
      dispatchGet s p = (notFoundResp, s)) ∧
    (∀ (s : Server) (p : String) (r : HResp) (s' : Server),
      dispatchGet s p = (r, s') → r.status = 200 →
      ("/content/" : String).data.isPrefixOf p.data = true ∧
      ∃ k c, strCutSuffix (pathBase p) ".html" = (k, true) ∧
        lookupContent s.contents k = some c ∧ r.body = c.document) := by
  refine ⟨?_, ?_, ?_⟩
  · intro md5hex salt srv id doc
    exact ⟨srv.basePath ++ "/content/" ++ contentKey md5hex salt srv id, rfl⟩
  · intro s p h
    unfold dispatchGet
    split
    · simp only [handleGet, h, Bool.not_false, if_true]
    · rfl
  · intro s p r s' hd hst
    unfold dispatchGet at hd
    split at hd
    · rename_i hpref
      refine ⟨hpref, ?_⟩
      simp only [handleGet] at hd
      split at hd
      · have hr : notFoundResp = r := congrArg Prod.fst hd
        rw [← hr] at hst
        simp [notFoundResp] at hst
      · rename_i hcut
        have hcut2 : (strCutSuffix (pathBase p) ".html").2 = true := by
          simpa using hcut
        cases hl : lookupContent s.contents
            (strCutSuffix (pathBase p) ".html").1 with
        | none =>
          rw [hl] at hd
          have hr : notFoundResp = r := congrArg Prod.fst hd
          rw [← hr] at hst
          simp [notFoundResp] at hst
        | some c =>
          rw [hl] at hd
          have hr : (⟨200, c.document⟩ : HResp) = r := congrArg Prod.fst hd
          refine ⟨(strCutSuffix (pathBase p) ".html").1, c, ?_, hl, ?_⟩
          · rw [← hcut2]
          · rw [← hr]
    · have hr : notFoundResp = r := congrArg Prod.fst hd
      rw [← hr] at hst
      simp [notFoundResp] at hst

/-- Witness for the amended C10 at concrete inputs: a published URL ends in
`.html`; the request `/content/k` (no `.html`) is 404 although `k` is a
stored key; and the 200 response for `/content/k.html` is traced back to
the stored key and document. -/
theorem C10_witness :
    (∃ pre, (serveContent (fun _ => "k") "" ⟨false, "", []⟩ "i" "D").1.fullUrl =
      pre ++ ".html") ∧
    dispatchGet ⟨false, "", [("k", ⟨"i", "D", "/content/k.html", 0⟩)]⟩
        "/content/k" =
      (notFoundResp, ⟨false, "", [("k", ⟨"i", "D", "/content/k.html", 0⟩)]⟩) ∧
    (("/content/" : String).data.isPrefixOf ("/content/k.html" : String).data =
        true ∧
      ∃ k c, strCutSuffix (pathBase "/content/k.html") ".html" = (k, true) ∧
        lookupContent [("k", ⟨"i", "D", "/content/k.html", 0⟩)] k = some c ∧
        (dispatchGet ⟨false, "", [("k", ⟨"i", "D", "/content/k.html", 0⟩)]⟩
          "/content/k.html").1.body = c.document) :=
  ⟨C10_url_shape.1 (fun _ => "k") "" ⟨false, "", []⟩ "i" "D",
   C10_url_shape.2.1 ⟨false, "", [("k", ⟨"i", "D", "/content/k.html", 0⟩)]⟩
     "/content/k" (by decide),
   C10_url_shape.2.2 ⟨false, "", [("k", ⟨"i", "D", "/content/k.html", 0⟩)]⟩
     "/content/k.html" _ _ rfl (by decide)⟩
